import Mathlib

/-!
Verification of the record-storage and wire-format core of the trust-dns
repository: the binary decoder (`BinDecoder`), the binary encoder
(`BinEncoder`), and the resource-record set (`RecordSet`).

The definitions in this file are shallow embeddings of the Rust sources
`proto/src/serialize/binary/decoder.rs`,
`proto/src/serialize/binary/encoder.rs` and `proto/src/rr/rr_set.rs`.
Byte buffers are modelled as `List Nat` (each element a byte value),
machine integers as `Nat`/`Int` with explicit `% 2 ^ w` where the source
performs a truncating cast, and fallible operations return
`Except ProtoErrorKind`.  Rust panics (failed `assert!` / `panic!`) are
modelled as `none` of an `Option` result.
-/

namespace TrustDns

/-- Error kinds surfaced by the codec, from `error::ProtoErrorKind`:
`Message` carries a static string, `CharacterDataTooLong` carries the
offending length. -/
inductive ProtoErrorKind where
  | message (msg : String)
  | characterDataTooLong (len : Nat)
  deriving DecidableEq

/-- The error built by the private `eof()` helper in `decoder.rs`. -/
def eofError : ProtoErrorKind :=
  ProtoErrorKind.message "unexpected end of input reached"

/-- Embeds `BinDecoder<'a>(Cursor<&'a [u8]>)`: an immutable byte buffer
together with a read position.  The buffer itself is never mutated. -/
structure BinDecoder where
  buffer : List Nat
  position : Nat
  deriving DecidableEq

namespace BinDecoder

/-- Embeds `BinDecoder::new`: a decoder over `buffer` at position 0. -/
def new (buffer : List Nat) : BinDecoder :=
  { buffer := buffer, position := 0 }

/-- Embeds `BinDecoder::len`: number of remaining bytes
(`Cursor::remaining = buffer length - position`). -/
def len (d : BinDecoder) : Nat :=
  d.buffer.length - d.position

/-- Embeds `BinDecoder::is_empty`: no bytes remaining. -/
def is_empty (d : BinDecoder) : Bool :=
  d.len = 0

/-- Embeds `BinDecoder::index`: the current position. -/
def index (d : BinDecoder) : Nat :=
  d.position

/-- Embeds `BinDecoder::clone(index_at)`: same buffer, position set to
`index_at` (a `u16` in the source). -/
def cloneAt (d : BinDecoder) (index_at : Nat) : BinDecoder :=
  { d with position := index_at % 2 ^ 16 }

/-- Byte at distance `k` from the current position (defaulting to 0 out of
range; in the source every read is bounds-checked before access). -/
def byteAt (d : BinDecoder) (k : Nat) : Nat :=
  (d.buffer.drop d.position).getD k 0

/-- Advance the cursor by `n` bytes. -/
def advance (d : BinDecoder) (n : Nat) : BinDecoder :=
  { d with position := d.position + n }

/-- Embeds `BinDecoder::peek`: the next byte without advancing, `none` when
exhausted. -/
def peek (d : BinDecoder) : Option Nat :=
  if d.is_empty then none else some (d.byteAt 0)

/-- Embeds `BinDecoder::read_u8`: one byte, advancing by 1; `eof()` when
empty. -/
def read_u8 (d : BinDecoder) : Except ProtoErrorKind (Nat × BinDecoder) :=
  if d.is_empty then Except.error eofError
  else Except.ok (d.byteAt 0, d.advance 1)

/-- Embeds `BinDecoder::pop`, which just calls `read_u8`. -/
def pop (d : BinDecoder) : Except ProtoErrorKind (Nat × BinDecoder) :=
  d.read_u8

/-- Embeds `BinDecoder::read_u16`: fails with `eof()` when `len <= 1`,
otherwise the 2-byte big-endian value, advancing by 2. -/
def read_u16 (d : BinDecoder) : Except ProtoErrorKind (Nat × BinDecoder) :=
  if d.len ≤ 1 then Except.error eofError
  else Except.ok (d.byteAt 0 * 256 + d.byteAt 1, d.advance 2)

/-- Big-endian value of four consecutive bytes starting at the current
position, as read by `get_u32::<BigEndian>`. -/
def be32At (d : BinDecoder) : Nat :=
  ((d.byteAt 0 * 256 + d.byteAt 1) * 256 + d.byteAt 2) * 256 + d.byteAt 3

/-- Two's-complement reinterpretation of a 32-bit unsigned value as `i32`. -/
def toI32 (n : Nat) : Int :=
  if n < 2 ^ 31 then (n : Int) else (n : Int) - 2 ^ 32

/-- Embeds `BinDecoder::read_u32`: fails with `eof()` when `len <= 3`,
otherwise the 4-byte big-endian value, advancing by 4. -/
def read_u32 (d : BinDecoder) : Except ProtoErrorKind (Nat × BinDecoder) :=
  if d.len ≤ 3 then Except.error eofError
  else Except.ok (d.be32At, d.advance 4)

/-- Embeds `BinDecoder::read_i32`: fails with `eof()` when `len <= 3`,
otherwise the 4-byte big-endian value reinterpreted as `i32`, advancing
by 4. -/
def read_i32 (d : BinDecoder) : Except ProtoErrorKind (Int × BinDecoder) :=
  if d.len ≤ 3 then Except.error eofError
  else Except.ok (toI32 d.be32At, d.advance 4)

/-- Embeds `BinDecoder::read_vec(len)`: copies `len` bytes starting at the
current position and advances by `len`; `eof()` when fewer than `len`
bytes remain. -/
def read_vec (d : BinDecoder) (len : Nat) :
    Except ProtoErrorKind (List Nat × BinDecoder) :=
  if d.len ≥ len then
    Except.ok ((d.buffer.drop d.position).take len, d.advance len)
  else Except.error eofError

/-- Embeds `BinDecoder::read_slice(len)`: returns the `len` bytes
`buffer[pos..pos + len]` but does not move the cursor (the source never
touches the cursor position on this path); fails with the
"buffer exhausted" message when `len` exceeds the remaining count. -/
def read_slice (d : BinDecoder) (len : Nat) :
    Except ProtoErrorKind (List Nat × BinDecoder) :=
  if len > d.len then Except.error (ProtoErrorKind.message "buffer exhausted")
  else Except.ok ((d.buffer.drop d.position).take len, d)

/-- Embeds `BinDecoder::read_character_data`: one length-prefix byte, then
that many bytes.  The source additionally converts the bytes to `String`
via `String::from_utf8` (Rust standard-library code, outside this
repository); character data is modelled here at the byte level. -/
def read_character_data (d : BinDecoder) :
    Except ProtoErrorKind (List Nat × BinDecoder) :=
  match d.read_u8 with
  | Except.error e => Except.error e
  | Except.ok (length, d1) => d1.read_vec length

end BinDecoder

/-- Big-endian interpretation of a byte list, most significant byte
first. -/
def beNat (bytes : List Nat) : Nat :=
  bytes.foldl (fun acc b => acc * 256 + b) 0

/-- Embeds `EncodeMode` from `encoder.rs`. -/
inductive EncodeMode where
  | Signing
  | Normal
  deriving DecidableEq

/-- Embeds `BinEncoder<'a>`: a growable output buffer with a write
position, the name-compression table (a `HashMap<Vec<Rc<String>>, u16>`,
modelled as an association list with most recent insertion first), the
encode mode and the canonical-names flag.  The buffer capacity managed by
`remaining_capacity`/`reserve` only affects allocation, never observable
contents, and is not modelled. -/
structure BinEncoder where
  buffer : List Nat
  position : Nat
  name_pointers : List (List String × Nat)
  mode : EncodeMode
  canonical_names : Bool
  deriving DecidableEq

/-- Lookup in the modelled `HashMap`: first binding for the key. -/
def mapFind (m : List (List String × Nat)) (k : List String) : Option Nat :=
  match m.find? (fun p => p.1 = k) with
  | some p => some p.2
  | none => none

/-- Insert into the modelled `HashMap`: the new binding shadows any prior
binding for the same key and leaves other keys untouched. -/
def mapInsert (m : List (List String × Nat)) (k : List String) (v : Nat) :
    List (List String × Nat) :=
  (k, v) :: m

namespace BinEncoder

/-- Embeds `BinEncoder::with_offset(buf, offset, mode)`. -/
def with_offset (buf : List Nat) (offset : Nat) (mode : EncodeMode) :
    BinEncoder :=
  { buffer := buf
    position := offset % 2 ^ 32
    name_pointers := []
    mode := mode
    canonical_names := false }

/-- Embeds `BinEncoder::new(buf)`: offset 0, `Normal` mode. -/
def new (buf : List Nat) : BinEncoder :=
  with_offset buf 0 EncodeMode.Normal

/-- Embeds `BinEncoder::into_bytes`: the underlying buffer. -/
def into_bytes (e : BinEncoder) : List Nat :=
  e.buffer

/-- Embeds `BinEncoder::len`: the buffer length. -/
def len (e : BinEncoder) : Nat :=
  e.buffer.length

/-- Embeds `BinEncoder::is_empty`. -/
def is_empty (e : BinEncoder) : Bool :=
  e.buffer.isEmpty

/-- Embeds `BinEncoder::offset`: the position masked to 32 bits. -/
def offset (e : BinEncoder) : Nat :=
  e.position % 2 ^ 32

/-- Embeds `BinEncoder::store_label_pointer`: records the current position
for `labels` only when the position is below `0x3FFF`; the stored value is
the position cast to `u16` (lossless under the guard). -/
def store_label_pointer (e : BinEncoder) (labels : List String) :
    BinEncoder :=
  if e.position < 0x3FFF then
    { e with
        name_pointers := mapInsert e.name_pointers labels (e.position % 2 ^ 16) }
  else e

/-- Embeds `BinEncoder::get_label_pointer`: lookup of a previously stored
offset for an exact label-sequence match. -/
def get_label_pointer (e : BinEncoder) (labels : List String) : Option Nat :=
  mapFind e.name_pointers labels

/-- Embeds `BinEncoder::grow(len)`: resizes the buffer to `buffer.len() +
len`, filling the new space with zeros (`reserve` only changes capacity,
which is unobservable). -/
def grow (e : BinEncoder) (len : Nat) : BinEncoder :=
  { e with buffer := e.buffer ++ List.replicate len 0 }

/-- Writes one byte at the current position and advances, as `put_u8` on
`Cursor<&mut Vec<u8>>` does.  Every call in the source is preceded by
`grow`, which guarantees the position is in bounds. -/
def putByte (e : BinEncoder) (b : Nat) : BinEncoder :=
  { e with buffer := e.buffer.set e.position b, position := e.position + 1 }

/-- Writes a byte sequence at the current position, as `put_slice` does. -/
def putSlice (e : BinEncoder) : List Nat → BinEncoder
  | [] => e
  | b :: rest => putSlice (e.putByte b) rest

/-- Embeds `BinEncoder::emit_u8`. -/
def emit_u8 (e : BinEncoder) (data : Nat) : BinEncoder :=
  (e.grow 1).putByte (data % 256)

/-- Embeds `BinEncoder::emit`, which forwards to `emit_u8`. -/
def emit (e : BinEncoder) (b : Nat) : BinEncoder :=
  e.emit_u8 b

/-- Embeds `BinEncoder::emit_u16`: two bytes, big endian. -/
def emit_u16 (e : BinEncoder) (data : Nat) : BinEncoder :=
  ((e.grow 2).putByte (data / 256 % 256)).putByte (data % 256)

/-- Embeds `BinEncoder::emit_u32`: four bytes, big endian. -/
def emit_u32 (e : BinEncoder) (data : Nat) : BinEncoder :=
  ((((e.grow 4).putByte (data / 2 ^ 24 % 256)).putByte
      (data / 2 ^ 16 % 256)).putByte (data / 2 ^ 8 % 256)).putByte
    (data % 256)

/-- Embeds `BinEncoder::emit_i32`: four bytes, big endian, two's
complement. -/
def emit_i32 (e : BinEncoder) (data : Int) : BinEncoder :=
  ((((e.grow 4).putByte ((data % 2 ^ 32).toNat / 2 ^ 24 % 256)).putByte
      ((data % 2 ^ 32).toNat / 2 ^ 16 % 256)).putByte
    ((data % 2 ^ 32).toNat / 2 ^ 8 % 256)).putByte ((data % 2 ^ 32).toNat % 256)

/-- Embeds `BinEncoder::emit_vec`: appends the byte sequence verbatim. -/
def emit_vec (e : BinEncoder) (data : List Nat) : BinEncoder :=
  putSlice (e.grow data.length) data

/-- Embeds `BinEncoder::emit_character_data`: fails with
`CharacterDataTooLong` when the byte length exceeds 255, otherwise a
one-byte length prefix followed by the bytes.  The `&str` argument is
modelled by its UTF-8 byte sequence. -/
def emit_character_data (e : BinEncoder) (char_data : List Nat) :
    Except ProtoErrorKind BinEncoder :=
  if char_data.length > 255 then
    Except.error (ProtoErrorKind.characterDataTooLong char_data.length)
  else
    Except.ok (putSlice ((e.grow (char_data.length + 1)).putByte
      (char_data.length % 256)) char_data)

end BinEncoder

/-- Embeds `DNSClass` (from `rr::dns_class`, external to the bounded
sources; only the variants used here are modelled). -/
inductive DNSClass where
  | IN
  | CH
  | HS
  | ANYCLASS
  deriving DecidableEq

/-- Embeds `RecordType` (from `rr::record_type`, external to the bounded
sources; only the variants relevant to `RecordSet` behaviour are
modelled). -/
inductive RecordType where
  | A
  | AAAA
  | ANY
  | CNAME
  | NS
  | SOA
  | TXT
  | RRSIG
  deriving DecidableEq

/-- Embeds the SOA rdata (`rr::rdata::SOA`): primary name server,
responsible mailbox, and the five 32-bit counters, of which `serial`
drives the monotonic-update guard. -/
structure SOAData where
  mname : String
  rname : String
  serial : Nat
  refresh : Nat
  retry : Nat
  expire : Nat
  minimum : Nat
  deriving DecidableEq

/-- Embeds `RData` (external `rr::rdata`): the typed payload of a record.
Structural equality, as derived by `PartialEq` in the source.  Modelled
from the spec: for the DNSSEC `SIG` payload only the signature algorithm
(a numeric code) is relevant to the behaviour verified here; the
`Algorithm` enum lives outside the bounded sources and the spec compares
algorithms numerically. -/
inductive RData where
  | a (address : Nat)
  | aaaa (address : Nat)
  | cname (name : String)
  | ns (name : String)
  | soa (soa : SOAData)
  | txt (texts : List String)
  | sig (algorithm : Nat)
  deriving DecidableEq

/-- Embeds `Record` (external `rr::resource`): name, type, class, ttl and
payload, with derived structural equality. -/
structure Record where
  name : String
  rr_type : RecordType
  dns_class : DNSClass
  ttl : Nat
  rdata : RData
  deriving DecidableEq

/-- Embeds `RecordSet`: records sharing one name and type, the attached
signature records, and the last-modification serial. -/
structure RecordSet where
  name : String
  record_type : RecordType
  dns_class : DNSClass
  ttl : Nat
  records : List Record
  rrsigs : List Record
  serial : Nat
  deriving DecidableEq

/-- Modelled from the spec: `SupportedAlgorithms` (external
`rr::dnssec::SupportedAlgorithms`) is the caller-supplied set of
DNSSEC algorithms, here a list of numeric algorithm codes; `has` is
membership and `is_empty` tests for the empty set. -/
abbrev SupportedAlgorithms := List Nat

/-- Algorithm code of a record when its rdata is a DNSSEC signature. -/
def sigAlgorithm (record : Record) : Option Nat :=
  match record.rdata with
  | RData.sig algorithm => some algorithm
  | _ => none

/-- Key used by `max_by_key` in `records_with_rrsigs`: the signature
algorithm, or `RSASHA1` (numeric code 5) for a non-signature payload
(dead after the preceding filter). -/
def sigKey (record : Record) : Nat :=
  match record.rdata with
  | RData.sig algorithm => algorithm
  | _ => 5

/-- Embeds Rust's `Iterator::max_by_key`: the element with the maximal
key, the last one when several are equally maximal, `none` on an empty
sequence. -/
def maxByKey (key : Record → Nat) : List Record → Option Record
  | [] => none
  | x :: xs =>
    match maxByKey key xs with
    | none => some x
    | some y => if key x > key y then some x else some y

namespace RecordSet

/-- Embeds `RecordSet::new(name, record_type, serial)`. -/
def new (name : String) (record_type : RecordType) (serial : Nat) :
    RecordSet :=
  { name := name
    record_type := record_type
    dns_class := DNSClass.IN
    ttl := 0
    records := []
    rrsigs := []
    serial := serial }

/-- Embeds `RecordSet::with_ttl(name, record_type, ttl)`. -/
def with_ttl (name : String) (record_type : RecordType) (ttl : Nat) :
    RecordSet :=
  { name := name
    record_type := record_type
    dns_class := DNSClass.IN
    ttl := ttl
    records := []
    rrsigs := []
    serial := 0 }

/-- Embeds `RecordSet::from(record)`: a set seeded from one record. -/
def from_record (record : Record) : RecordSet :=
  { name := record.name
    record_type := record.rr_type
    dns_class := record.dns_class
    ttl := record.ttl
    records := [record]
    rrsigs := []
    serial := 0 }

/-- Embeds `RecordSet::records_without_rrsigs`: all stored records. -/
def records_without_rrsigs (s : RecordSet) : List Record :=
  s.records

/-- Embeds `RecordSet::records_with_rrsigs(supported_algorithms)`: with an
empty algorithm set, all records followed by all signatures; otherwise
all records followed by the filtered signature of maximal algorithm, when
one exists. -/
def records_with_rrsigs (s : RecordSet) (supported : SupportedAlgorithms) :
    List Record :=
  if List.isEmpty supported then s.records ++ s.rrsigs
  else
    let filtered := s.rrsigs.filter (fun record =>
      match record.rdata with
      | RData.sig algorithm => decide (algorithm ∈ supported)
      | _ => false)
    s.records ++ (maxByKey sigKey filtered).toList

/-- Embeds `RecordSet::insert_rrsig`. -/
def insert_rrsig (s : RecordSet) (rrsig : Record) : RecordSet :=
  { s with rrsigs := s.rrsigs ++ [rrsig] }

/-- Embeds `RecordSet::clear_rrsigs`. -/
def clear_rrsigs (s : RecordSet) : RecordSet :=
  { s with rrsigs := [] }

/-- Embeds the private `RecordSet::updated(serial)`: set the serial and
clear the signatures. -/
def updated (s : RecordSet) (serial : Nat) : RecordSet :=
  { s with serial := serial, rrsigs := [] }

end RecordSet

/-- Embeds the `to_replace`/`to_remove` computation shared by `insert` and
`remove`: the indexes, produced by `iter().enumerate()`, of the stored
records whose rdata equals the incoming record's rdata, starting the
enumeration at `n`. -/
def matchingIndexesFrom (n : Nat) (records : List Record) (record : Record) :
    List Nat :=
  ((records.enumFrom n).filter
      (fun p => decide (p.2.rdata = record.rdata))).map Prod.fst

/-- The `to_replace`/`to_remove` index list with enumeration starting at
0, exactly as in the source. -/
def matchingIndexes (records : List Record) (record : Record) : List Nat :=
  matchingIndexesFrom 0 records record

/-- Embeds the replacement loop of `RecordSet::insert` (`for i in
to_replace`): at each index, an exactly-equal stored record aborts with
`false`; otherwise `push` + `swap_remove(i)` replace the stored record in
place (the pushed clone lands at index `i`), the ttl is taken from the
incoming record and `updated(serial)` runs.  After the loop, a record
that replaced nothing is appended.  `none` models the out-of-bounds panic
Rust would raise (unreachable from indexes produced by `enumerate`). -/
def insertLoop (record : Record) (serial : Nat) :
    List Nat → Bool → RecordSet → Option (Bool × RecordSet)
  | [], replaced, s =>
    if replaced then some (true, s)
    else
      some (true,
        { s with
            ttl := record.ttl
            serial := serial
            rrsigs := []
            records := s.records ++ [record] })
  | i :: rest, _, s =>
    match s.records.get? i with
    | none => none
    | some existing =>
      if existing = record then some (false, s)
      else
        insertLoop record serial rest true
          { s with
              records := s.records.set i record
              ttl := record.ttl
              serial := serial
              rrsigs := [] }

/-- Embeds the rdata-scan tail of `RecordSet::insert`: compute
`to_replace` on the current records, then run the replacement loop. -/
def insertScan (s : RecordSet) (record : Record) (serial : Nat) :
    Option (Bool × RecordSet) :=
  insertLoop record serial (matchingIndexes s.records record) false s

/-- Embeds `RecordSet::insert(record, serial)`.  `none` models a panic:
the `assert_eq!` on name and type, the `assert!(records.len() <= 1)` of
the SOA and CNAME branches, and the `panic!("wrong rdata")` arm for a
stored SOA record with a non-SOA payload. -/
def RecordSet.insert (s : RecordSet) (record : Record) (serial : Nat) :
    Option (Bool × RecordSet) :=
  if record.name = s.name ∧ record.rr_type = s.record_type then
    match record.rr_type with
    | RecordType.SOA =>
      if s.records.length ≤ 1 then
        match s.records.head? with
        | some soa_record =>
          match soa_record.rdata with
          | RData.soa existing_soa =>
            match record.rdata with
            | RData.soa new_soa =>
              if new_soa.serial ≤ existing_soa.serial then some (false, s)
              else insertScan { s with records := [] } record serial
            | _ => some (false, s)
          | _ => none
        | none => insertScan { s with records := [] } record serial
      else none
    | RecordType.CNAME =>
      if s.records.length ≤ 1 then
        insertScan { s with records := [] } record serial
      else none
    | _ => insertScan s record serial
  else none

/-- Embeds the removal loop of `RecordSet::remove` (`for i in
to_remove`): each index is removed with `Vec::remove`, setting the
removed flag and running `updated(serial)`.  `none` models the panic
`Vec::remove` raises on an out-of-bounds index. -/
def removeLoop (serial : Nat) :
    List Nat → Bool → RecordSet → Option (Bool × RecordSet)
  | [], removed, s => some (removed, s)
  | i :: rest, _, s =>
    if i < s.records.length then
      removeLoop serial rest true
        { s with
            records := s.records.eraseIdx i
            serial := serial
            rrsigs := [] }
    else none

/-- Embeds `RecordSet::remove(record, serial)`.  `none` models the failed
assertions on name and on type (type must equal the set's type or be
`ANY`). -/
def RecordSet.remove (s : RecordSet) (record : Record) (serial : Nat) :
    Option (Bool × RecordSet) :=
  if record.name = s.name ∧
      (record.rr_type = s.record_type ∨ record.rr_type = RecordType.ANY) then
    match record.rr_type with
    | RecordType.NS =>
      if s.records.length ≤ 1 then some (false, s)
      else removeLoop serial (matchingIndexes s.records record) false s
    | RecordType.SOA => some (false, s)
    | _ => removeLoop serial (matchingIndexes s.records record) false s
  else none

/-- Reachability invariant of `RecordSet`: the stored records have
pairwise-distinct rdata.  Every constructor establishes it and every
mutator preserves it (`RecordSet` fields are private in the source, so
all values arise through this API). -/
def distinctRdata (s : RecordSet) : Prop :=
  s.records.Pairwise (fun a b => a.rdata ≠ b.rdata)

/-! Supporting lemmas about the decoder. -/

theorem beNat_two (a b : Nat) : beNat [a, b] = a * 256 + b := by
  simp [beNat]

theorem beNat_four (a b c d : Nat) :
    beNat [a, b, c, d] = ((a * 256 + b) * 256 + c) * 256 + d := by
  simp [beNat]

theorem take_two_of_le (l : List Nat) (h : 2 ≤ l.length) :
    l.take 2 = [l.getD 0 0, l.getD 1 0] := by
  cases l with
  | nil => simp at h
  | cons a t =>
    cases t with
    | nil => simp at h
    | cons b t2 => simp

theorem take_four_of_le (l : List Nat) (h : 4 ≤ l.length) :
    l.take 4 = [l.getD 0 0, l.getD 1 0, l.getD 2 0, l.getD 3 0] := by
  cases l with
  | nil => simp at h
  | cons a t =>
    cases t with
    | nil => simp at h
    | cons b t2 =>
      cases t2 with
      | nil => simp at h
      | cons c t3 =>
        cases t3 with
        | nil => simp at h
        | cons e t4 => simp

theorem length_drop_position (d : BinDecoder) :
    (d.buffer.drop d.position).length = d.len := by
  simp [BinDecoder.len]

theorem read_u16_ok (d : BinDecoder) (h : 1 < d.len) :
    d.read_u16 =
      Except.ok (beNat ((d.buffer.drop d.position).take 2), d.advance 2) := by
  have h2 : 2 ≤ (d.buffer.drop d.position).length := by
    rw [length_drop_position]; omega
  rw [take_two_of_le _ h2, beNat_two]
  simp [BinDecoder.read_u16, BinDecoder.byteAt, Nat.not_le.mpr h, h]

theorem be32At_eq (d : BinDecoder) (h : 3 < d.len) :
    d.be32At = beNat ((d.buffer.drop d.position).take 4) := by
  have h4 : 4 ≤ (d.buffer.drop d.position).length := by
    rw [length_drop_position]; omega
  rw [take_four_of_le _ h4, beNat_four]
  simp [BinDecoder.be32At, BinDecoder.byteAt]

theorem read_u32_ok (d : BinDecoder) (h : 3 < d.len) :
    d.read_u32 =
      Except.ok (beNat ((d.buffer.drop d.position).take 4), d.advance 4) := by
  rw [← be32At_eq d h]
  simp [BinDecoder.read_u32, Nat.not_le.mpr h]

theorem read_i32_ok (d : BinDecoder) (h : 3 < d.len) :
    d.read_i32 =
      Except.ok (BinDecoder.toI32 (beNat ((d.buffer.drop d.position).take 4)),
        d.advance 4) := by
  rw [← be32At_eq d h]
  simp [BinDecoder.read_i32, Nat.not_le.mpr h]

/-- C1: for a decoder with `r` remaining bytes, `read_u16` fails exactly
when `r ≤ 1` and otherwise returns the 2-byte big-endian value advancing
by 2; `read_u32` and `read_i32` fail exactly when `r ≤ 3` and otherwise
return the 4-byte big-endian value advancing by 4; `read_vec len` and
`read_slice len` fail iff `len > r`; and a read of length 0 always
succeeds without advancing the position. -/
theorem C1_decoder_bounds (d : BinDecoder) (n : Nat) :
    (d.len ≤ 1 → d.read_u16 = Except.error eofError) ∧
    (1 < d.len →
      d.read_u16 =
        Except.ok (beNat ((d.buffer.drop d.position).take 2), d.advance 2)) ∧
    (d.len ≤ 3 →
      d.read_u32 = Except.error eofError ∧
      d.read_i32 = Except.error eofError) ∧
    (3 < d.len →
      d.read_u32 =
        Except.ok (beNat ((d.buffer.drop d.position).take 4), d.advance 4) ∧
      d.read_i32 =
        Except.ok (BinDecoder.toI32 (beNat ((d.buffer.drop d.position).take 4)),
          d.advance 4)) ∧
    ((∃ e, d.read_vec n = Except.error e) ↔ d.len < n) ∧
    ((∃ e, d.read_slice n = Except.error e) ↔ d.len < n) ∧
    d.read_vec 0 = Except.ok ([], d) ∧
    d.read_slice 0 = Except.ok ([], d) := by
  refine ⟨fun h => ?_, read_u16_ok d, fun h => ⟨?_, ?_⟩,
    fun h => ⟨read_u32_ok d h, read_i32_ok d h⟩, ?_, ?_, ?_, ?_⟩
  · simp [BinDecoder.read_u16, h]
  · simp [BinDecoder.read_u32, h]
  · simp [BinDecoder.read_i32, h]
  · unfold BinDecoder.read_vec
    split
    · simp; omega
    · simp; omega
  · unfold BinDecoder.read_slice
    split
    · simp; omega
    · simp; omega
  · simp [BinDecoder.read_vec, BinDecoder.advance]
  · simp [BinDecoder.read_slice]

/-- Witness for C1 at a concrete decoder: a 3-byte buffer has too few
bytes for `read_u32` but enough for `read_u16`. -/
theorem C1_decoder_bounds_witness :
    (BinDecoder.new [1, 2, 3]).len ≤ 3 ∧
      (BinDecoder.new [1, 2, 3]).read_u32 = Except.error eofError ∧
      1 < (BinDecoder.new [1, 2, 3]).len ∧
      (BinDecoder.new [1, 2, 3]).read_u16 =
        Except.ok
          (beNat (((BinDecoder.new [1, 2, 3]).buffer.drop
              (BinDecoder.new [1, 2, 3]).position).take 2),
            (BinDecoder.new [1, 2, 3]).advance 2) :=
  ⟨by decide,
    ((C1_decoder_bounds (BinDecoder.new [1, 2, 3]) 0).2.2.1 (by decide)).1,
    by decide,
    (C1_decoder_bounds (BinDecoder.new [1, 2, 3]) 0).2.1 (by decide)⟩

/-- C10: a successful `read_slice len` returns the `len` bytes starting at
the current position but leaves the cursor exactly as it was (so an
immediately repeated `read_slice len` returns the same bytes), while
`read_vec len` on the same decoder returns the same bytes and advances by
`len`. -/
theorem C10_read_slice_no_advance (d : BinDecoder) (n : Nat)
    (h : n ≤ d.len) :
    d.read_slice n =
      Except.ok ((d.buffer.drop d.position).take n, d) ∧
    d.read_vec n =
      Except.ok ((d.buffer.drop d.position).take n, d.advance n) := by
  constructor
  · simp [BinDecoder.read_slice, Nat.not_lt.mpr h]
  · simp [BinDecoder.read_vec, h]

/-- Witness for C10: reading a 4-byte slice of an 8-byte buffer yields the
first four bytes and the untouched decoder, and the repeated read is
literally the same call on the same state. -/
theorem C10_read_slice_no_advance_witness :
    (BinDecoder.new [100, 101, 102, 103, 104, 105, 106, 107]).read_slice 4 =
      Except.ok ([100, 101, 102, 103],
        BinDecoder.new [100, 101, 102, 103, 104, 105, 106, 107]) := by
  have h :=
    (C10_read_slice_no_advance
      (BinDecoder.new [100, 101, 102, 103, 104, 105, 106, 107]) 4
      (by decide)).1
  simpa using h

/-! Supporting lemmas about the encoder. -/

theorem putSlice_buffer (chars : List Nat) :
    ∀ (e : BinEncoder) (pre : List Nat),
      e.buffer = pre ++ List.replicate chars.length 0 →
      e.position = pre.length →
      (BinEncoder.putSlice e chars).buffer = pre ++ chars := by
  induction chars with
  | nil =>
    intro e pre hb hp
    simpa [BinEncoder.putSlice] using hb
  | cons b bs ih =>
    intro e pre hb hp
    have hset : (e.putByte b).buffer =
        (pre ++ [b]) ++ List.replicate bs.length 0 := by
      simp [BinEncoder.putByte, hb, hp, List.set_append, List.replicate_succ]
    have hpos : (e.putByte b).position = (pre ++ [b]).length := by
      simp [BinEncoder.putByte, hp]
    have h := ih (e.putByte b) (pre ++ [b]) hset hpos
    simpa [BinEncoder.putSlice] using h

theorem emit_u8_bytes (v : Nat) :
    ((BinEncoder.new []).emit_u8 v).into_bytes = [v % 256] := by
  simp [BinEncoder.new, BinEncoder.with_offset, BinEncoder.emit_u8,
    BinEncoder.grow, BinEncoder.putByte, BinEncoder.into_bytes,
    List.replicate]

theorem emit_u16_bytes (v : Nat) :
    ((BinEncoder.new []).emit_u16 v).into_bytes = [v / 256 % 256, v % 256] := by
  simp [BinEncoder.new, BinEncoder.with_offset, BinEncoder.emit_u16,
    BinEncoder.grow, BinEncoder.putByte, BinEncoder.into_bytes,
    List.replicate, List.set]

theorem emit_u32_bytes (v : Nat) :
    ((BinEncoder.new []).emit_u32 v).into_bytes =
      [v / 2 ^ 24 % 256, v / 2 ^ 16 % 256, v / 2 ^ 8 % 256, v % 256] := by
  simp [BinEncoder.new, BinEncoder.with_offset, BinEncoder.emit_u32,
    BinEncoder.grow, BinEncoder.putByte, BinEncoder.into_bytes,
    List.replicate, List.set]

theorem emit_i32_bytes (v : Int) :
    ((BinEncoder.new []).emit_i32 v).into_bytes =
      [(v % 2 ^ 32).toNat / 2 ^ 24 % 256, (v % 2 ^ 32).toNat / 2 ^ 16 % 256,
        (v % 2 ^ 32).toNat / 2 ^ 8 % 256, (v % 2 ^ 32).toNat % 256] := by
  simp [BinEncoder.new, BinEncoder.with_offset, BinEncoder.emit_i32,
    BinEncoder.grow, BinEncoder.putByte, BinEncoder.into_bytes,
    List.replicate, List.set]

theorem read_u8_new (b : Nat) (rest : List Nat) :
    (BinDecoder.new (b :: rest)).read_u8 =
      Except.ok (b, (BinDecoder.new (b :: rest)).advance 1) := by
  simp [BinDecoder.new, BinDecoder.read_u8, BinDecoder.is_empty,
    BinDecoder.len, BinDecoder.byteAt]

theorem emit_character_data_bytes (chars : List Nat)
    (h : chars.length ≤ 255) :
    ∃ e, (BinEncoder.new []).emit_character_data chars = Except.ok e ∧
      e.into_bytes = chars.length :: chars := by
  unfold BinEncoder.emit_character_data
  rw [if_neg (by omega)]
  refine ⟨_, rfl, ?_⟩
  have hb : ((((BinEncoder.new []).grow (chars.length + 1)).putByte
        (chars.length % 256)).buffer) =
      [chars.length] ++ List.replicate chars.length 0 := by
    simp [BinEncoder.new, BinEncoder.with_offset, BinEncoder.grow,
      BinEncoder.putByte, List.replicate_succ,
      Nat.mod_eq_of_lt (by omega : chars.length < 256)]
  have hp : ((((BinEncoder.new []).grow (chars.length + 1)).putByte
        (chars.length % 256)).position) = ([chars.length] : List Nat).length := by
    simp [BinEncoder.new, BinEncoder.with_offset, BinEncoder.grow,
      BinEncoder.putByte]
  have := putSlice_buffer chars _ [chars.length] hb hp
  simpa [BinEncoder.into_bytes] using this

theorem read_character_data_new (chars : List Nat) :
    (BinDecoder.new (chars.length :: chars)).read_character_data =
      Except.ok (chars,
        ((BinDecoder.new (chars.length :: chars)).advance 1).advance
          chars.length) := by
  rw [BinDecoder.read_character_data, read_u8_new]
  simp [BinDecoder.read_vec, BinDecoder.len, BinDecoder.advance,
    BinDecoder.new]

/-- C5: emitting a u8/u16/u32/i32 value into a fresh buffer and decoding
from offset 0 yields the original value; character data of byte length 0,
1 or 255 round-trips the same way, while byte length 256 fails to encode
with `CharacterDataTooLong`. -/
theorem C5_roundtrip :
    (∀ v : Nat, v < 2 ^ 8 → ∃ d,
      (BinDecoder.new ((BinEncoder.new []).emit_u8 v).into_bytes).read_u8 =
        Except.ok (v, d)) ∧
    (∀ v : Nat, v < 2 ^ 16 → ∃ d,
      (BinDecoder.new ((BinEncoder.new []).emit_u16 v).into_bytes).read_u16 =
        Except.ok (v, d)) ∧
    (∀ v : Nat, v < 2 ^ 32 → ∃ d,
      (BinDecoder.new ((BinEncoder.new []).emit_u32 v).into_bytes).read_u32 =
        Except.ok (v, d)) ∧
    (∀ v : Int, -(2 ^ 31) ≤ v → v < 2 ^ 31 → ∃ d,
      (BinDecoder.new ((BinEncoder.new []).emit_i32 v).into_bytes).read_i32 =
        Except.ok (v, d)) ∧
    (∀ chars : List Nat,
      chars.length = 0 ∨ chars.length = 1 ∨ chars.length = 255 →
      ∃ e d, (BinEncoder.new []).emit_character_data chars = Except.ok e ∧
        (BinDecoder.new e.into_bytes).read_character_data =
          Except.ok (chars, d)) ∧
    (∀ chars : List Nat, chars.length = 256 →
      (BinEncoder.new []).emit_character_data chars =
        Except.error (ProtoErrorKind.characterDataTooLong 256)) := by
  refine ⟨?_, ?_, ?_, ?_, ?_, ?_⟩
  · intro v hv
    rw [emit_u8_bytes, Nat.mod_eq_of_lt (show v < 256 by omega), read_u8_new]
    exact ⟨_, rfl⟩
  · intro v hv
    rw [emit_u16_bytes]
    refine ⟨(BinDecoder.new [v / 256 % 256, v % 256]).advance 2, ?_⟩
    rw [read_u16_ok _ (by simp [BinDecoder.new, BinDecoder.len])]
    simp [BinDecoder.new, beNat]
    omega
  · intro v hv
    rw [emit_u32_bytes]
    refine ⟨(BinDecoder.new [v / 2 ^ 24 % 256, v / 2 ^ 16 % 256,
      v / 2 ^ 8 % 256, v % 256]).advance 4, ?_⟩
    rw [read_u32_ok _ (by simp [BinDecoder.new, BinDecoder.len])]
    simp [BinDecoder.new, beNat]
    omega
  · intro v hv1 hv2
    rw [emit_i32_bytes]
    refine ⟨(BinDecoder.new [(v % 2 ^ 32).toNat / 2 ^ 24 % 256,
      (v % 2 ^ 32).toNat / 2 ^ 16 % 256, (v % 2 ^ 32).toNat / 2 ^ 8 % 256,
      (v % 2 ^ 32).toNat % 256]).advance 4, ?_⟩
    unfold BinDecoder.read_i32
    rw [if_neg (by simp [BinDecoder.new, BinDecoder.len])]
    have hbe : (BinDecoder.new [(v % 2 ^ 32).toNat / 2 ^ 24 % 256,
        (v % 2 ^ 32).toNat / 2 ^ 16 % 256, (v % 2 ^ 32).toNat / 2 ^ 8 % 256,
        (v % 2 ^ 32).toNat % 256]).be32At = (v % 2 ^ 32).toNat := by
      simp [BinDecoder.be32At, BinDecoder.byteAt, BinDecoder.new]
      omega
    rw [hbe]
    have hval : BinDecoder.toI32 ((v % 2 ^ 32).toNat) = v := by
      unfold BinDecoder.toI32
      split <;> omega
    rw [hval]
  · intro chars hlen
    have h255 : chars.length ≤ 255 := by omega
    obtain ⟨e, he, hbytes⟩ := emit_character_data_bytes chars h255
    exact ⟨e, _, he, by rw [hbytes]; exact read_character_data_new chars⟩
  · intro chars hlen
    unfold BinEncoder.emit_character_data
    rw [if_pos (by omega), hlen]

/-- Witness for C5: the u16 value 0xABCD and a 255-byte character string
round-trip, and a 256-byte character string fails to encode. -/
theorem C5_roundtrip_witness :
    (∃ d, (BinDecoder.new
        ((BinEncoder.new []).emit_u16 43981).into_bytes).read_u16 =
      Except.ok (43981, d)) ∧
    (∃ e d, (BinEncoder.new []).emit_character_data
        (List.replicate 255 97) = Except.ok e ∧
      (BinDecoder.new e.into_bytes).read_character_data =
        Except.ok (List.replicate 255 97, d)) ∧
    (BinEncoder.new []).emit_character_data (List.replicate 256 97) =
      Except.error (ProtoErrorKind.characterDataTooLong 256) :=
  ⟨C5_roundtrip.2.1 43981 (by decide),
    C5_roundtrip.2.2.2.2.1 (List.replicate 255 97)
      (Or.inr (Or.inr (List.length_replicate 255 97))),
    C5_roundtrip.2.2.2.2.2 (List.replicate 256 97)
      (List.length_replicate 256 97)⟩

/-! Compression-pointer recording (C9). -/

/-- C9 counterexample: the claim says an offset representable in 14 bits,
such as 16383, is recorded by `store_label_pointer` so that
`get_label_pointer` returns it; but the source guard is strict
(`position < 0x3FFF`), so at offset 16383 nothing is recorded and the
lookup yields `none`. -/
theorem C9_store_pointer_counterexample :
    ((BinEncoder.with_offset [] 16383 EncodeMode.Normal).store_label_pointer
        ["www"]).get_label_pointer ["www"] = none := by
  rfl

/-- C9 amended: `store_label_pointer` records the current write offset for
the label sequence exactly when the offset is strictly below `0x3FFF`
(0–16382), making a subsequent `get_label_pointer` on an equal sequence
return that offset; at offsets ≥ 16383 the table is left untouched, so the
lookup still returns `none` for a sequence that was never recorded. -/
theorem C9_store_pointer_range (e : BinEncoder) (labels : List String) :
    (e.position < 16383 →
      (e.store_label_pointer labels).get_label_pointer labels =
        some e.position) ∧
    (16383 ≤ e.position →
      e.store_label_pointer labels = e ∧
      (e.get_label_pointer labels = none →
        (e.store_label_pointer labels).get_label_pointer labels = none)) := by
  constructor
  · intro h
    have hlt : e.position < 65536 := by omega
    rw [BinEncoder.store_label_pointer, if_pos (by omega)]
    simp [BinEncoder.get_label_pointer, mapInsert, mapFind, List.find?_cons,
      Nat.mod_eq_of_lt hlt]
  · intro h
    have hstore : e.store_label_pointer labels = e := by
      simp [BinEncoder.store_label_pointer, Nat.not_lt.mpr h]
    exact ⟨hstore, fun hnone => by rw [hstore]; exact hnone⟩

/-- Witness for C9 amended: offset 16382 is recorded and found; offset
16383 records nothing. -/
theorem C9_store_pointer_range_witness :
    ((BinEncoder.with_offset [] 16382 EncodeMode.Normal).store_label_pointer
        ["www"]).get_label_pointer ["www"] = some 16382 ∧
    (BinEncoder.with_offset [] 16383
        EncodeMode.Normal).store_label_pointer ["example", "com"] =
      BinEncoder.with_offset [] 16383 EncodeMode.Normal :=
  ⟨by
    have h := (C9_store_pointer_range
      (BinEncoder.with_offset [] 16382 EncodeMode.Normal) ["www"]).1
      (by decide)
    simpa using h,
    ((C9_store_pointer_range
      (BinEncoder.with_offset [] 16383 EncodeMode.Normal)
      ["example", "com"]).2 (by decide)).1⟩

/-! Supporting lemmas about the record set. -/

theorem matchingIndexesFrom_cons (n : Nat) (a : Record) (l : List Record)
    (r : Record) :
    matchingIndexesFrom n (a :: l) r =
      (if a.rdata = r.rdata then [n] else []) ++
        matchingIndexesFrom (n + 1) l r := by
  unfold matchingIndexesFrom
  rw [List.enumFrom_cons, List.filter_cons]
  by_cases h : a.rdata = r.rdata
  · simp [h]
  · simp [h]

theorem matchingIndexesFrom_shift (l : List Record) (r : Record) :
    ∀ n, matchingIndexesFrom (n + 1) l r =
      (matchingIndexesFrom n l r).map (· + 1) := by
  induction l with
  | nil => intro n; simp [matchingIndexesFrom]
  | cons a t ih =>
    intro n
    rw [matchingIndexesFrom_cons, matchingIndexesFrom_cons, ih (n + 1)]
    by_cases h : a.rdata = r.rdata <;> simp [h]

theorem matchingIndexes_nil (r : Record) : matchingIndexes [] r = [] := rfl

theorem matchingIndexes_cons (a : Record) (l : List Record) (r : Record) :
    matchingIndexes (a :: l) r =
      (if a.rdata = r.rdata then [0] else []) ++
        (matchingIndexes l r).map (· + 1) := by
  unfold matchingIndexes
  rw [matchingIndexesFrom_cons, matchingIndexesFrom_shift]

theorem matchingIndexes_eq_nil (l : List Record) (r : Record)
    (h : ∀ a ∈ l, a.rdata ≠ r.rdata) : matchingIndexes l r = [] := by
  induction l with
  | nil => rfl
  | cons a t ih =>
    rw [matchingIndexes_cons, if_neg (h a (by simp)),
      ih (fun b hb => h b (by simp [hb]))]
    rfl

/-- Characterization of `to_replace`/`to_remove` on a record list with
pairwise-distinct rdata: either no stored record matches and the index
list is empty, or exactly one does and the index list is that singleton;
in the singleton case erasing the index is the same as filtering out the
matching rdata. -/
theorem matchingIndexes_spec (l : List Record) (r : Record)
    (hdist : l.Pairwise (fun a b => a.rdata ≠ b.rdata)) :
    (matchingIndexes l r = [] ∧ ∀ a ∈ l, a.rdata ≠ r.rdata) ∨
    (∃ i, matchingIndexes l r = [i] ∧ ∃ hi : i < l.length,
      (l.get ⟨i, hi⟩).rdata = r.rdata ∧
      l.eraseIdx i = l.filter (fun a => !(decide (a.rdata = r.rdata)))) := by
  induction l with
  | nil => exact Or.inl ⟨rfl, by simp⟩
  | cons a t ih =>
    rw [List.pairwise_cons] at hdist
    by_cases ha : a.rdata = r.rdata
    · right
      have htno : ∀ b ∈ t, b.rdata ≠ r.rdata := by
        intro b hb hbr
        exact hdist.1 b hb (by rw [ha, hbr])
      have htnil : matchingIndexes t r = [] := matchingIndexes_eq_nil t r htno
      refine ⟨0, ?_, ?_⟩
      · rw [matchingIndexes_cons, if_pos ha, htnil]
        rfl
      · refine ⟨by simp, by simpa using ha, ?_⟩
        rw [List.eraseIdx_cons_zero, List.filter_cons]
        have : (!(decide (a.rdata = r.rdata))) = false := by simp [ha]
        rw [this, if_neg (by simp)]
        exact (List.filter_eq_self.mpr (fun b hb => by simp [htno b hb])).symm
    · rcases ih hdist.2 with ⟨htnil, htno⟩ | ⟨i, hone, hi, hget, herase⟩
      · left
        constructor
        · rw [matchingIndexes_cons, if_neg ha, htnil]
          rfl
        · intro b hb
          rcases List.mem_cons.mp hb with rfl | hbt
          · exact ha
          · exact htno b hbt
      · right
        refine ⟨i + 1, ?_, ?_⟩
        · rw [matchingIndexes_cons, if_neg ha, hone]
          rfl
        · refine ⟨by simpa using hi, by simpa using hget, ?_⟩
          rw [List.eraseIdx_cons_succ, List.filter_cons, herase]
          rw [if_pos (by simp [ha])]

/-- Replacing a record by one with the same rdata preserves pairwise
distinctness of rdata. -/
theorem pairwise_set_same (l : List Record) :
    ∀ (i : Nat) (r : Record) (hi : i < l.length),
      (l.get ⟨i, hi⟩).rdata = r.rdata →
      l.Pairwise (fun a b => a.rdata ≠ b.rdata) →
      (l.set i r).Pairwise (fun a b => a.rdata ≠ b.rdata) := by
  induction l with
  | nil => intro i r hi; simp at hi
  | cons a t ih =>
    intro i r hi hget hp
    rw [List.pairwise_cons] at hp
    cases i with
    | zero =>
      rw [List.set_cons_zero, List.pairwise_cons]
      have ha : a.rdata = r.rdata := by simpa using hget
      exact ⟨fun b hb => ha ▸ hp.1 b hb, hp.2⟩
    | succ j =>
      rw [List.set_cons_succ, List.pairwise_cons]
      have hj : j < t.length := by simpa using hi
      have hgetj : (t.get ⟨j, hj⟩).rdata = r.rdata := by
        simpa using hget
      refine ⟨fun b hb => ?_, ih j r hj hgetj hp.2⟩
      rcases List.mem_or_eq_of_mem_set hb with hbt | rfl
      · exact hp.1 b hbt
      · rw [← hgetj]
        exact hp.1 _ (List.get_mem t j hj)

/-- Full description of the rdata-scan tail of `insert` on a set whose
records have pairwise-distinct rdata: either nothing matches and the
record is appended with `true`, or the unique matching stored record is
structurally identical (return `false`, no change at all) or differs
(replace it in place, return `true`). -/
theorem insertScan_spec (s : RecordSet) (record : Record) (serial : Nat)
    (hdist : s.records.Pairwise (fun a b => a.rdata ≠ b.rdata)) :
    ((∀ a ∈ s.records, a.rdata ≠ record.rdata) ∧
      insertScan s record serial = some (true,
        { s with
            ttl := record.ttl
            serial := serial
            rrsigs := []
            records := s.records ++ [record] })) ∨
    (∃ i, ∃ hi : i < s.records.length,
      (s.records.get ⟨i, hi⟩).rdata = record.rdata ∧
      ((s.records.get ⟨i, hi⟩ = record ∧
        insertScan s record serial = some (false, s)) ∨
       (s.records.get ⟨i, hi⟩ ≠ record ∧
        insertScan s record serial = some (true,
          { s with
              records := s.records.set i record
              ttl := record.ttl
              serial := serial
              rrsigs := [] })))) := by
  rcases matchingIndexes_spec s.records record hdist with
    ⟨hnil, hno⟩ | ⟨i, hone, hi, hget, _⟩
  · left
    refine ⟨hno, ?_⟩
    unfold insertScan
    rw [hnil]
    rfl
  · right
    refine ⟨i, hi, hget, ?_⟩
    unfold insertScan
    rw [hone]
    by_cases heq : s.records.get ⟨i, hi⟩ = record
    · left
      refine ⟨heq, ?_⟩
      unfold insertLoop
      rw [List.get?_eq_get hi]
      dsimp only
      rw [if_pos heq]
    · right
      refine ⟨heq, ?_⟩
      unfold insertLoop
      rw [List.get?_eq_get hi]
      dsimp only
      rw [if_neg heq]
      rfl

/-- Scanning an empty record list always appends and returns `true`. -/
theorem insertScan_empty (s : RecordSet) (record : Record) (serial : Nat)
    (h : s.records = []) :
    insertScan s record serial = some (true,
      { s with
          ttl := record.ttl
          serial := serial
          rrsigs := []
          records := s.records ++ [record] }) := by
  unfold insertScan
  rw [matchingIndexes_eq_nil _ _ (by simp [h])]
  rfl

/-- Scanning a singleton list holding exactly the incoming record returns
`false` and leaves the set untouched. -/
theorem insertScan_self (s : RecordSet) (record : Record) (serial : Nat)
    (hrecs : s.records = [record]) :
    insertScan s record serial = some (false, s) := by
  obtain ⟨nm, rt, dc, tl, recs, sigs, ser⟩ := s
  simp only at hrecs
  subst hrecs
  unfold insertScan
  rw [matchingIndexes_cons, if_pos rfl, matchingIndexes_nil]
  simp only [List.map_nil, List.append_nil]
  unfold insertLoop
  simp

/-- When the scan tail of `insert` returns `false` on a distinct-rdata
set, the set is returned unchanged. -/
theorem insertScan_false (s : RecordSet) (record : Record) (n : Nat)
    (s2 : RecordSet)
    (hdist : s.records.Pairwise (fun a b => a.rdata ≠ b.rdata))
    (h : insertScan s record n = some (false, s2)) : s2 = s := by
  rcases insertScan_spec s record n hdist with ⟨_, heq⟩ | ⟨i, hi, hget, hcase⟩
  · rw [heq] at h
    simp at h
  · rcases hcase with ⟨_, heq⟩ | ⟨_, heq⟩
    · rw [heq] at h
      simp at h
      exact h.symm
    · rw [heq] at h
      simp at h

/-- Full description of the removal loop run on the `to_remove` indexes of
a distinct-rdata set: no match returns `false` with the set unchanged;
otherwise the matching record is removed (the remainder being exactly the
rdata filter), the signatures are cleared and the serial is set. -/
theorem removeScan_spec (s : RecordSet) (record : Record) (serial : Nat)
    (hdist : s.records.Pairwise (fun a b => a.rdata ≠ b.rdata)) :
    ((∀ a ∈ s.records, a.rdata ≠ record.rdata) ∧
      removeLoop serial (matchingIndexes s.records record) false s =
        some (false, s)) ∨
    ((∃ a ∈ s.records, a.rdata = record.rdata) ∧
      removeLoop serial (matchingIndexes s.records record) false s =
        some (true,
          { s with
              records := s.records.filter
                (fun a => !(decide (a.rdata = record.rdata)))
              serial := serial
              rrsigs := [] })) := by
  rcases matchingIndexes_spec s.records record hdist with
    ⟨hnil, hno⟩ | ⟨i, hone, hi, hget, herase⟩
  · left
    refine ⟨hno, ?_⟩
    rw [hnil]
    rfl
  · right
    refine ⟨⟨s.records.get ⟨i, hi⟩, List.get_mem s.records i hi, hget⟩, ?_⟩
    rw [hone]
    unfold removeLoop
    rw [if_pos hi, herase]
    rfl

/-- Sample A record and record sets used to witness the record-set
theorems on concrete inputs. -/
def sampleARecord : Record :=
  { name := "www.example.com."
    rr_type := RecordType.A
    dns_class := DNSClass.IN
    ttl := 86400
    rdata := RData.a 24 }

/-- Second sample A record with a different address. -/
def sampleARecord2 : Record :=
  { sampleARecord with rdata := RData.a 25 }

/-- A-record set holding exactly `sampleARecord`. -/
def sampleASet1 : RecordSet :=
  { name := "www.example.com."
    record_type := RecordType.A
    dns_class := DNSClass.IN
    ttl := 86400
    records := [sampleARecord]
    rrsigs := []
    serial := 0 }

/-- A-record set holding both sample A records. -/
def sampleASet2 : RecordSet :=
  { sampleASet1 with records := [sampleARecord, sampleARecord2] }

/-- C2: on a record set whose stored records have pairwise-distinct rdata
(the invariant every constructor establishes and every mutator preserves),
an `insert` that returns `false` leaves the whole set — records, rrsigs,
serial and ttl — exactly as it was. -/
theorem C2_insert_false_noop (s : RecordSet) (record : Record)
    (serial : Nat) (s2 : RecordSet) (hdist : distinctRdata s)
    (h : s.insert record serial = some (false, s2)) : s2 = s := by
  unfold RecordSet.insert at h
  split at h
  · split at h
    · -- SOA arm
      split at h
      · split at h
        · -- head? = some: match on the stored rdata
          split at h
          · -- stored rdata is SOA: match on the incoming rdata
            split at h
            · -- incoming rdata is SOA: serial comparison
              split at h
              · simp only [Option.some.injEq, Prod.mk.injEq, true_and] at h
                exact h.symm
              · rw [insertScan_empty _ _ _ rfl] at h
                simp at h
            · -- incoming rdata is not SOA: rejected without mutation
              simp only [Option.some.injEq, Prod.mk.injEq, true_and] at h
              exact h.symm
          · -- stored rdata is not SOA: panic, no result
            simp at h
        · -- head? = none: the record is appended, returning true
          rw [insertScan_empty _ _ _ rfl] at h
          simp at h
      · simp at h
    · -- CNAME arm: the set is cleared and the record appended: true
      split at h
      · rw [insertScan_empty _ _ _ rfl] at h
        simp at h
      · simp at h
    · -- default arm: plain rdata scan
      exact insertScan_false s record serial s2 hdist h
  · simp at h

/-- Witness for C2: re-inserting the already-stored A record returns
`false` and the set is unchanged. -/
theorem C2_insert_false_noop_witness :
    distinctRdata sampleASet1 ∧ sampleASet1 = sampleASet1 :=
  ⟨by simp [distinctRdata, sampleASet1],
    C2_insert_false_noop sampleASet1 sampleARecord 5 sampleASet1
      (by simp [distinctRdata, sampleASet1]) (by decide)⟩

/-- Inserting into a set with no stored records always succeeds and stores
exactly the new record. -/
theorem insert_empty (s : RecordSet) (record : Record) (n : Nat)
    (hempty : s.records = []) (hname : record.name = s.name)
    (htype : record.rr_type = s.record_type) :
    s.insert record n = some (true,
      { s with
          ttl := record.ttl
          serial := n
          rrsigs := []
          records := [record] }) := by
  obtain ⟨nm, rt, dc, tl, recs, sigs, ser⟩ := s
  simp only at hempty
  subst hempty
  unfold RecordSet.insert
  rw [if_pos ⟨hname, htype⟩]
  cases h2 : record.rr_type <;> exact insertScan_empty _ record n rfl

/-- Sample SOA rdata as in the repository unit test `test_insert_soa`. -/
def sampleOldSoa : SOAData :=
  { mname := "sns.dns.icann.org."
    rname := "noc.dns.icann.org."
    serial := 2015082403
    refresh := 7200
    retry := 3600
    expire := 1209600
    minimum := 3600 }

/-- Sample SOA rdata with the same serial but different names. -/
def sampleSameSoa : SOAData :=
  { sampleOldSoa with
      mname := "sns.dns.icann.net."
      rname := "noc.dns.icann.net." }

/-- Sample SOA rdata with a strictly larger serial. -/
def sampleNewSoa : SOAData :=
  { sampleSameSoa with serial := 2015082404 }

/-- SOA record holding `sampleOldSoa`. -/
def sampleOldSoaRecord : Record :=
  { name := "example.com."
    rr_type := RecordType.SOA
    dns_class := DNSClass.IN
    ttl := 3600
    rdata := RData.soa sampleOldSoa }

/-- SOA record holding `sampleSameSoa`. -/
def sampleSameSoaRecord : Record :=
  { sampleOldSoaRecord with rdata := RData.soa sampleSameSoa }

/-- SOA record holding `sampleNewSoa`. -/
def sampleNewSoaRecord : Record :=
  { sampleOldSoaRecord with rdata := RData.soa sampleNewSoa }

/-- SOA record set holding exactly `sampleOldSoaRecord`. -/
def sampleSoaSet : RecordSet :=
  { name := "example.com."
    record_type := RecordType.SOA
    dns_class := DNSClass.IN
    ttl := 3600
    records := [sampleOldSoaRecord]
    rrsigs := []
    serial := 0 }

/-- C3: on an SOA-typed set holding one SOA record with rdata serial S1,
inserting an SOA record with rdata serial S2 ≤ S1 returns `false` and
leaves the set unchanged, while S2 > S1 returns `true` and afterwards the
set holds exactly the new record. -/
theorem C3_soa_serial_monotonic (s : RecordSet) (old record : Record)
    (oldSoa newSoa : SOAData) (serial : Nat)
    (hname : record.name = s.name) (htype : record.rr_type = RecordType.SOA)
    (hstype : s.record_type = RecordType.SOA)
    (hrecs : s.records = [old]) (hold : old.rdata = RData.soa oldSoa)
    (hnew : record.rdata = RData.soa newSoa) :
    (newSoa.serial ≤ oldSoa.serial →
      s.insert record serial = some (false, s)) ∧
    (oldSoa.serial < newSoa.serial → ∃ s2,
      s.insert record serial = some (true, s2) ∧ s2.records = [record]) := by
  obtain ⟨nm, rt, dc, tl, recs, sigs, ser⟩ := s
  obtain ⟨onm, ot, oc, otl, ord⟩ := old
  obtain ⟨rnm, rt2, rc, rtl, rrd⟩ := record
  simp only at hrecs hstype hold hnew htype hname
  subst hrecs hstype hold hnew htype hname
  unfold RecordSet.insert
  rw [if_pos ⟨rfl, rfl⟩]
  constructor
  · intro hle
    simp [hle]
  · intro hlt
    have hnle : ¬(newSoa.serial ≤ oldSoa.serial) := by omega
    simp only [List.length_cons, List.length_nil, List.head?_cons, hnle,
      Nat.zero_add, Nat.le_refl, if_true, ite_false]
    exact ⟨_, insertScan_empty _ _ _ rfl, by simp⟩

/-- Witness for C3: the same-serial SOA is rejected without mutation and
the larger-serial SOA replaces the stored one. -/
theorem C3_soa_serial_monotonic_witness :
    (sampleSoaSet.insert sampleSameSoaRecord 0 = some (false, sampleSoaSet)) ∧
    (∃ s2, sampleSoaSet.insert sampleNewSoaRecord 0 = some (true, s2) ∧
      s2.records = [sampleNewSoaRecord]) :=
  ⟨(C3_soa_serial_monotonic sampleSoaSet sampleOldSoaRecord
      sampleSameSoaRecord sampleOldSoa sampleSameSoa 0 rfl rfl rfl rfl rfl
      rfl).1 (by decide),
    (C3_soa_serial_monotonic sampleSoaSet sampleOldSoaRecord
      sampleNewSoaRecord sampleOldSoa sampleNewSoa 0 rfl rfl rfl rfl rfl
      rfl).2 (by decide)⟩

/-- Post-condition of the removal loop on a distinct-rdata set: the
result exists, the surviving records are exactly the rdata filter, the
returned flag reports whether anything matched, and a removal clears the
signatures and sets the serial. -/
theorem removeScan_post (s : RecordSet) (record : Record) (serial : Nat)
    (hdist : s.records.Pairwise (fun a b => a.rdata ≠ b.rdata)) :
    ∃ b s2,
      removeLoop serial (matchingIndexes s.records record) false s =
        some (b, s2) ∧
      (∀ a ∈ s2.records, a.rdata ≠ record.rdata) ∧
      s2.records = s.records.filter
        (fun a => !(decide (a.rdata = record.rdata))) ∧
      (b = true ↔ ∃ a ∈ s.records, a.rdata = record.rdata) ∧
      (b = true → s2.rrsigs = [] ∧ s2.serial = serial) := by
  rcases removeScan_spec s record serial hdist with ⟨hno, heq⟩ | ⟨hex, heq⟩
  · refine ⟨false, s, heq, hno, ?_, ?_, ?_⟩
    · exact (List.filter_eq_self.mpr (fun a ha => by simp [hno a ha])).symm
    · constructor
      · intro hft
        exact absurd hft (by decide)
      · rintro ⟨a, ha, hcontra⟩
        exact absurd hcontra (hno a ha)
    · intro hft
      exact absurd hft (by decide)
  · refine ⟨true, _, heq, ?_, rfl, ?_, fun _ => ⟨rfl, rfl⟩⟩
    · intro a ha
      have hmem := List.mem_filter.mp ha
      simpa using hmem.2
    · constructor
      · intro _
        exact hex
      · intro _
        rfl

/-- C4: on a distinct-rdata set, a `remove` that bypasses the NS-floor and
SOA guards removes every stored record whose rdata equals the incoming
rdata (afterwards none remains), returns `true` iff at least one record
was removed, and in that case clears the signatures and sets the serial to
the supplied value. -/
theorem C4_remove_complete (s : RecordSet) (record : Record) (serial : Nat)
    (hdist : distinctRdata s) (hname : record.name = s.name)
    (htype : record.rr_type = s.record_type)
    (hnotsoa : record.rr_type ≠ RecordType.SOA)
    (hns : record.rr_type = RecordType.NS → 2 ≤ s.records.length) :
    ∃ b s2, s.remove record serial = some (b, s2) ∧
      (∀ a ∈ s2.records, a.rdata ≠ record.rdata) ∧
      s2.records = s.records.filter
        (fun a => !(decide (a.rdata = record.rdata))) ∧
      (b = true ↔ ∃ a ∈ s.records, a.rdata = record.rdata) ∧
      (b = true → s2.rrsigs = [] ∧ s2.serial = serial) := by
  unfold RecordSet.remove
  rw [if_pos ⟨hname, Or.inl htype⟩]
  cases htype2 : record.rr_type
  case SOA => exact absurd htype2 hnotsoa
  case NS =>
    have hlen := hns htype2
    rw [if_neg (by omega)]
    exact removeScan_post s record serial hdist
  all_goals exact removeScan_post s record serial hdist

/-- Witness for C4: removing the first of the two stored A records
succeeds, leaves exactly the other one, clears signatures and sets the
serial. -/
theorem C4_remove_complete_witness :
    ∃ b s2, sampleASet2.remove sampleARecord 7 = some (b, s2) ∧
      (∀ a ∈ s2.records, a.rdata ≠ sampleARecord.rdata) ∧
      s2.records = sampleASet2.records.filter
        (fun a => !(decide (a.rdata = sampleARecord.rdata))) ∧
      (b = true ↔ ∃ a ∈ sampleASet2.records, a.rdata = sampleARecord.rdata) ∧
      (b = true → s2.rrsigs = [] ∧ s2.serial = 7) :=
  C4_remove_complete sampleASet2 sampleARecord 7
    (by simp [distinctRdata, sampleASet2, sampleASet1, sampleARecord,
      sampleARecord2])
    rfl rfl (by decide) (fun h => by cases h)

/-- C6: removing via an NS-typed record from an NS set holding exactly one
record returns `false` and changes nothing, and removing via an SOA-typed
record from an SOA set returns `false` and changes nothing regardless of
the set contents. -/
theorem C6_remove_guards (s : RecordSet) (record : Record) (serial : Nat)
    (hname : record.name = s.name) :
    (record.rr_type = RecordType.NS → s.record_type = RecordType.NS →
      s.records.length = 1 → s.remove record serial = some (false, s)) ∧
    (record.rr_type = RecordType.SOA → s.record_type = RecordType.SOA →
      s.remove record serial = some (false, s)) := by
  constructor
  · intro ht hst hlen
    unfold RecordSet.remove
    rw [if_pos ⟨hname, Or.inl (by rw [ht, hst])⟩, ht]
    dsimp only
    rw [if_pos (by omega)]
  · intro ht hst
    unfold RecordSet.remove
    rw [if_pos ⟨hname, Or.inl (by rw [ht, hst])⟩, ht]

/-- Sample NS record over the zone apex. -/
def sampleNsRecord : Record :=
  { name := "example.com."
    rr_type := RecordType.NS
    dns_class := DNSClass.IN
    ttl := 86400
    rdata := RData.ns "a.iana-servers.net." }

/-- NS-record set holding exactly `sampleNsRecord`. -/
def sampleNsSet : RecordSet :=
  { name := "example.com."
    record_type := RecordType.NS
    dns_class := DNSClass.IN
    ttl := 86400
    records := [sampleNsRecord]
    rrsigs := []
    serial := 0 }

/-- Witness for C6: the last NS record is not removable, and the stored
SOA record is not removable. -/
theorem C6_remove_guards_witness :
    sampleNsSet.remove sampleNsRecord 3 = some (false, sampleNsSet) ∧
    sampleSoaSet.remove sampleOldSoaRecord 3 = some (false, sampleSoaSet) :=
  ⟨(C6_remove_guards sampleNsSet sampleNsRecord 3 rfl).1 rfl rfl rfl,
    (C6_remove_guards sampleSoaSet sampleOldSoaRecord 3 rfl).2 rfl rfl⟩

/-- Sample CNAME record. -/
def sampleCnameRecord : Record :=
  { name := "web.example.com."
    rr_type := RecordType.CNAME
    dns_class := DNSClass.IN
    ttl := 3600
    rdata := RData.cname "www.example.com." }

/-- Empty CNAME-typed record set. -/
def sampleCnameSet : RecordSet :=
  RecordSet.new "web.example.com." RecordType.CNAME 0

/-- C7 counterexample: on a CNAME-typed set, inserting a structurally
identical record twice returns `true` both times — the CNAME branch
unconditionally clears the set before the duplicate scan, so the second
insert never sees the stored copy and does not return `false` as the
claim states. -/
theorem C7_duplicate_insert_counterexample :
    (sampleCnameSet.insert sampleCnameRecord 0).map Prod.fst = some true ∧
    ((sampleCnameSet.insert sampleCnameRecord 0).bind
        (fun p => p.2.insert sampleCnameRecord 1)).map Prod.fst =
      some true := by
  constructor
  · decide
  · decide

/-- C7 amended: for every record set whose type is not CNAME, inserting a
record into the empty set returns `true`, inserting the structurally
identical record a second time returns `false`, and the set still holds
exactly one copy; for a CNAME-typed set the second insert returns `true`
instead (unconditional replacement), though the set still holds exactly
one copy.  For an SOA-typed set the record must carry SOA rdata (anything
else panics on the second insert). -/
theorem C7_duplicate_insert_twice (s : RecordSet) (record : Record)
    (n1 n2 : Nat) (hempty : s.records = [])
    (hname : record.name = s.name) (htype : record.rr_type = s.record_type)
    (hsoa : s.record_type = RecordType.SOA →
      ∃ soa, record.rdata = RData.soa soa) :
    ∃ s1, s.insert record n1 = some (true, s1) ∧ s1.records = [record] ∧
      (s.record_type ≠ RecordType.CNAME →
        s1.insert record n2 = some (false, s1)) ∧
      (s.record_type = RecordType.CNAME → ∃ s2,
        s1.insert record n2 = some (true, s2) ∧ s2.records = [record]) := by
  obtain ⟨nm, rt, dc, tl, recs, sigs, ser⟩ := s
  simp only at hempty hname htype hsoa
  subst hempty htype hname
  refine ⟨_, insert_empty _ record n1 rfl rfl rfl, rfl, ?_, ?_⟩
  · intro hncname
    cases h2 : record.rr_type
    case CNAME => exact absurd h2 hncname
    case SOA =>
      obtain ⟨soa, hrd⟩ := hsoa h2
      obtain ⟨rnm, rt2, rc, rtl, rrd⟩ := record
      simp only at hrd h2
      subst hrd h2
      unfold RecordSet.insert
      rw [if_pos ⟨rfl, rfl⟩]
      simp
    all_goals (
      unfold RecordSet.insert
      rw [if_pos ⟨rfl, by rw [h2]⟩, h2]
      exact insertScan_self _ record n2 rfl)
  · intro hcname
    have h2 : record.rr_type = RecordType.CNAME := hcname
    unfold RecordSet.insert
    rw [if_pos ⟨rfl, rfl⟩, h2]
    dsimp only
    rw [if_pos (by simp)]
    rw [insertScan_empty _ _ _ rfl]
    exact ⟨_, rfl, by simp⟩

/-- Witness for C7 amended: inserting the sample A record twice into the
empty A set gives `true` then `false`, with exactly one stored copy. -/
theorem C7_duplicate_insert_twice_witness :
    ∃ s1, (RecordSet.new "www.example.com." RecordType.A 0).insert
        sampleARecord 1 = some (true, s1) ∧
      s1.records = [sampleARecord] ∧
      (RecordType.A ≠ RecordType.CNAME →
        s1.insert sampleARecord 2 = some (false, s1)) ∧
      (RecordType.A = RecordType.CNAME → ∃ s2,
        s1.insert sampleARecord 2 = some (true, s2) ∧
        s2.records = [sampleARecord]) :=
  C7_duplicate_insert_twice
    (RecordSet.new "www.example.com." RecordType.A 0) sampleARecord 1 2
    rfl rfl rfl (fun h => by cases h)

/-- Unfolding equation for `maxByKey` on a nonempty list. -/
theorem maxByKey_cons (key : Record → Nat) (x : Record) (xs : List Record) :
    maxByKey key (x :: xs) =
      match maxByKey key xs with
      | none => some x
      | some y => if key x > key y then some x else some y := rfl

/-- `maxByKey` returns `none` exactly on the empty list. -/
theorem maxByKey_eq_none (key : Record → Nat) (l : List Record) :
    maxByKey key l = none ↔ l = [] := by
  cases l with
  | nil => simp [maxByKey]
  | cons x xs =>
    rw [maxByKey_cons]
    constructor
    · intro h
      exfalso
      cases hx : maxByKey key xs with
      | none =>
        rw [hx] at h
        exact Option.noConfusion h
      | some y =>
        rw [hx] at h
        dsimp only at h
        split at h <;> exact Option.noConfusion h
    · intro h
      exact List.noConfusion h

/-- An element returned by `maxByKey` belongs to the list and its key
dominates every key in the list. -/
theorem maxByKey_mem_and_max (key : Record → Nat) :
    ∀ (l : List Record) (y : Record), maxByKey key l = some y →
      y ∈ l ∧ ∀ x ∈ l, key x ≤ key y := by
  intro l
  induction l with
  | nil => intro y h; exact Option.noConfusion h
  | cons a t ih =>
    intro y h
    rw [maxByKey_cons] at h
    cases ht : maxByKey key t with
    | none =>
      rw [ht] at h
      dsimp only at h
      injection h with h2
      subst h2
      have hteq : t = [] := (maxByKey_eq_none key t).mp ht
      subst hteq
      exact ⟨by simp, by simp⟩
    | some z =>
      rw [ht] at h
      dsimp only at h
      obtain ⟨hzmem, hzmax⟩ := ih z ht
      split at h
      · injection h with h2
        subst h2
        next hgt =>
          refine ⟨by simp, ?_⟩
          intro x hx
          rcases List.mem_cons.mp hx with rfl | hxt
          · exact Nat.le_refl _
          · have hk := hzmax x hxt
            omega
      · injection h with h2
        subst h2
        next hngt =>
          refine ⟨by simp [hzmem], ?_⟩
          intro x hx
          rcases List.mem_cons.mp hx with rfl | hxt
          · omega
          · exact hzmax x hxt

/-- A record has `sigAlgorithm` `some alg` exactly when its rdata is a
DNSSEC signature with that algorithm. -/
theorem sigAlgorithm_eq_some (r : Record) (alg : Nat) :
    sigAlgorithm r = some alg ↔ r.rdata = RData.sig alg := by
  cases hr : r.rdata <;> simp [sigAlgorithm, hr]

/-- The filter predicate used by `records_with_rrsigs` holds exactly on
records carrying a supported signature algorithm. -/
theorem sigFilter_iff (supported : SupportedAlgorithms) (r : Record) :
    ((match r.rdata with
      | RData.sig algorithm => decide (algorithm ∈ supported)
      | _ => false) = true) ↔
    ∃ alg, sigAlgorithm r = some alg ∧ alg ∈ supported := by
  cases hr : r.rdata <;> simp [sigAlgorithm, hr]

/-- C8: with an empty supported-algorithm set, `records_with_rrsigs`
returns all records followed by all signatures unfiltered; with a
non-empty set it returns all records plus at most one signature, which is
stored, supported, and of numerically maximal algorithm among the
supported stored signatures, and no signature when none is supported. -/
theorem C8_rrsig_selection (s : RecordSet) (supported : SupportedAlgorithms) :
    (supported = [] →
      s.records_with_rrsigs supported = s.records ++ s.rrsigs) ∧
    (supported ≠ [] → ∃ osig : Option Record,
      s.records_with_rrsigs supported = s.records ++ osig.toList ∧
      (osig = none ↔ ∀ r ∈ s.rrsigs, ∀ alg,
        sigAlgorithm r = some alg → alg ∉ supported) ∧
      (∀ r, osig = some r → r ∈ s.rrsigs ∧
        ∃ alg, sigAlgorithm r = some alg ∧ alg ∈ supported ∧
          ∀ r2 ∈ s.rrsigs, ∀ alg2, sigAlgorithm r2 = some alg2 →
            alg2 ∈ supported → alg2 ≤ alg)) := by
  constructor
  · intro h
    subst h
    unfold RecordSet.records_with_rrsigs
    rfl
  · intro h
    unfold RecordSet.records_with_rrsigs
    rw [if_neg (by simp [List.isEmpty_iff, h])]
    refine ⟨_, rfl, ?_, ?_⟩
    · rw [maxByKey_eq_none, List.filter_eq_nil_iff]
      constructor
      · intro hall r hr alg halg hmem
        exact absurd ((sigFilter_iff supported r).mpr ⟨alg, halg, hmem⟩)
          (hall r hr)
      · intro hall r hr hpred
        obtain ⟨alg, halg, hmem⟩ := (sigFilter_iff supported r).mp hpred
        exact hall r hr alg halg hmem
    · intro r hr
      obtain ⟨hmem, hmax⟩ := maxByKey_mem_and_max sigKey _ r hr
      obtain ⟨hinsigs, hpred⟩ := List.mem_filter.mp hmem
      obtain ⟨alg, halg, hsup⟩ := (sigFilter_iff supported r).mp hpred
      refine ⟨hinsigs, alg, halg, hsup, ?_⟩
      intro r2 hr2 alg2 halg2 hsup2
      have hmem2 : r2 ∈ s.rrsigs.filter (fun record =>
          match record.rdata with
          | RData.sig algorithm => decide (algorithm ∈ supported)
          | _ => false) :=
        List.mem_filter.mpr ⟨hr2,
          (sigFilter_iff supported r2).mpr ⟨alg2, halg2, hsup2⟩⟩
      have hk := hmax r2 hmem2
      have hkr : sigKey r = alg := by
        rw [sigAlgorithm_eq_some] at halg
        simp [sigKey, halg]
      have hkr2 : sigKey r2 = alg2 := by
        rw [sigAlgorithm_eq_some] at halg2
        simp [sigKey, halg2]
      omega

/-- Sample signature record with the given algorithm code, attached to the
sample A record set for the selection witness. -/
def sampleSigRecord (alg : Nat) : Record :=
  { name := "www.example.com."
    rr_type := RecordType.RRSIG
    dns_class := DNSClass.IN
    ttl := 3600
    rdata := RData.sig alg }

/-- Sample record set with four signatures of distinct algorithms
(RSASHA256 = 8, ECDSAP256SHA256 = 13, ECDSAP384SHA384 = 14,
ED25519 = 15). -/
def sampleSigSet : RecordSet :=
  { sampleASet1 with rrsigs := [sampleSigRecord 8, sampleSigRecord 13,
      sampleSigRecord 14, sampleSigRecord 15] }

/-- Witness for C8 at the sample set: the empty filter returns everything
and a non-empty filter keeps at most one stored supported signature of
maximal algorithm. -/
theorem C8_rrsig_selection_witness :
    (sampleSigSet.records_with_rrsigs [] =
      sampleSigSet.records ++ sampleSigSet.rrsigs) ∧
    (∃ osig : Option Record,
      sampleSigSet.records_with_rrsigs [14] =
        sampleSigSet.records ++ osig.toList ∧
      (osig = none ↔ ∀ r ∈ sampleSigSet.rrsigs, ∀ alg,
        sigAlgorithm r = some alg → alg ∉ [14]) ∧
      (∀ r, osig = some r → r ∈ sampleSigSet.rrsigs ∧
        ∃ alg, sigAlgorithm r = some alg ∧ alg ∈ [14] ∧
          ∀ r2 ∈ sampleSigSet.rrsigs, ∀ alg2,
            sigAlgorithm r2 = some alg2 → alg2 ∈ [14] → alg2 ≤ alg)) :=
  ⟨(C8_rrsig_selection sampleSigSet []).1 rfl,
    (C8_rrsig_selection sampleSigSet [14]).2 (by decide)⟩

/-! Invariant lemmas: the pairwise-distinct-rdata property assumed by the
theorems above is a reachability invariant of `RecordSet`: it holds for
every constructor and is preserved by `insert` and `remove` (and by the
signature and ttl/class mutators, which do not touch rdata). -/

theorem distinctRdata_new (name : String) (record_type : RecordType)
    (serial : Nat) : distinctRdata (RecordSet.new name record_type serial) := by
  simp [distinctRdata, RecordSet.new]

theorem distinctRdata_with_ttl (name : String) (record_type : RecordType)
    (ttl : Nat) : distinctRdata (RecordSet.with_ttl name record_type ttl) := by
  simp [distinctRdata, RecordSet.with_ttl]

theorem distinctRdata_from_record (record : Record) :
    distinctRdata (RecordSet.from_record record) := by
  simp [distinctRdata, RecordSet.from_record]

theorem insertScan_preserves_distinctRdata (s : RecordSet) (record : Record)
    (n : Nat) (b : Bool) (s2 : RecordSet)
    (hdist : s.records.Pairwise (fun a b => a.rdata ≠ b.rdata))
    (h : insertScan s record n = some (b, s2)) :
    s2.records.Pairwise (fun a b => a.rdata ≠ b.rdata) := by
  rcases insertScan_spec s record n hdist with
    ⟨hno, heq⟩ | ⟨i, hi, hget, hcase⟩
  · rw [heq] at h
    simp only [Option.some.injEq, Prod.mk.injEq] at h
    rw [← h.2]
    simp only [List.pairwise_append]
    refine ⟨hdist, by simp, ?_⟩
    intro a ha c hc
    rw [List.mem_singleton.mp hc]
    exact hno a ha
  · rcases hcase with ⟨_, heq⟩ | ⟨_, heq⟩
    · rw [heq] at h
      simp only [Option.some.injEq, Prod.mk.injEq] at h
      rw [← h.2]
      exact hdist
    · rw [heq] at h
      simp only [Option.some.injEq, Prod.mk.injEq] at h
      rw [← h.2]
      exact pairwise_set_same s.records i record hi hget hdist

theorem insert_preserves_distinctRdata (s : RecordSet) (record : Record)
    (serial : Nat) (b : Bool) (s2 : RecordSet) (hdist : distinctRdata s)
    (h : s.insert record serial = some (b, s2)) : distinctRdata s2 := by
  unfold RecordSet.insert at h
  split at h
  · split at h
    · split at h
      · split at h
        · split at h
          · split at h
            · split at h
              · simp only [Option.some.injEq, Prod.mk.injEq] at h
                rw [← h.2]
                exact hdist
              · exact insertScan_preserves_distinctRdata _ record serial b s2
                  (by simp) h
            · simp only [Option.some.injEq, Prod.mk.injEq] at h
              rw [← h.2]
              exact hdist
          · simp at h
        · exact insertScan_preserves_distinctRdata _ record serial b s2
            (by simp) h
      · simp at h
    · split at h
      · exact insertScan_preserves_distinctRdata _ record serial b s2
          (by simp) h
      · simp at h
    · exact insertScan_preserves_distinctRdata s record serial b s2 hdist h
  · simp at h

theorem remove_preserves_distinctRdata (s : RecordSet) (record : Record)
    (serial : Nat) (b : Bool) (s2 : RecordSet) (hdist : distinctRdata s)
    (h : s.remove record serial = some (b, s2)) : distinctRdata s2 := by
  have hscan : ∀ b2 s3,
      removeLoop serial (matchingIndexes s.records record) false s =
        some (b2, s3) →
      s3.records.Pairwise (fun a c => a.rdata ≠ c.rdata) := by
    intro b2 s3 h3
    rcases removeScan_spec s record serial hdist with ⟨_, heq⟩ | ⟨_, heq⟩
    · rw [heq] at h3
      simp only [Option.some.injEq, Prod.mk.injEq] at h3
      rw [← h3.2]
      exact hdist
    · rw [heq] at h3
      simp only [Option.some.injEq, Prod.mk.injEq] at h3
      rw [← h3.2]
      exact List.Pairwise.sublist (List.filter_sublist s.records) hdist
  unfold RecordSet.remove at h
  split at h
  · split at h
    · split at h
      · simp only [Option.some.injEq, Prod.mk.injEq] at h
        rw [← h.2]
        exact hdist
      · exact hscan b s2 h
    · simp only [Option.some.injEq, Prod.mk.injEq] at h
      rw [← h.2]
      exact hdist
    · exact hscan b s2 h
  · simp at h

theorem insert_rrsig_preserves_distinctRdata (s : RecordSet) (rrsig : Record)
    (hdist : distinctRdata s) : distinctRdata (s.insert_rrsig rrsig) :=
  hdist

theorem clear_rrsigs_preserves_distinctRdata (s : RecordSet)
    (hdist : distinctRdata s) : distinctRdata s.clear_rrsigs :=
  hdist

end TrustDns
